import Mathlib

/-!
Verification development for the WeeChat `exec` plugin core
(`src/plugins/exec/exec.c`): a shallow embedding of the executed-command
registry, output accumulation, display routing and the completion
callback, together with theorems settling the specification's claims.

Modelling conventions:
* C strings are Lean `String`s (byte = character: captured output is
  treated as ASCII; `strlen` is `String.length`), `NULL` pointers are
  `none`.
* C `int` fields used as booleans (`detached`, `output_to_buffer`,
  `line_numbers`, `display_rc`) are `Bool`.
* Heap nodes are addressed by `Nat`; the global doubly-linked list
  (`exec_cmds` / `last_exec_cmd`) lives in an explicit `ExecState` whose
  `heap` maps addresses to job records.  A fresh-address counter stands
  in for `malloc`; allocation failure paths (which the C code handles by
  silently dropping the operation) are not modelled.
* External collaborators are parameters: the color-modifier service
  (`weechat_hook_modifier_exec`), the buffer-resolution primitive
  (`weechat_buffer_search`) and the configuration value
  (`exec_config_command_purge_delay`).  Side effects performed through
  the plugin API (command submission, tagged printing, hsignal emission,
  timer registration) are reified as an `ExecEffect` list in the order
  the C code performs them.  The debug-level diagnostic printf in
  `exec_process_cb` (guarded by `debug >= 2`) is not modelled; it does
  not touch job state or output routing.
-/

/-- Color handling policy of a job (`enum t_exec_color`). -/
inductive ExecColor where
  | ansi
  | decode
  | strip
deriving DecidableEq, Repr

/-- The executed-command record, `struct t_exec_cmd` (exec.h).  The
`prev_cmd` / `next_cmd` pointers are heap addresses.  The `hook` handle
is opaque (`Option Unit`). -/
structure ExecCmd where
  number : Int
  name : Option String
  hook : Option Unit
  command : Option String
  pid : Int
  detached : Bool
  start_time : Int
  end_time : Int
  output_to_buffer : Bool
  buffer_full_name : Option String
  line_numbers : Bool
  display_rc : Bool
  out_size : Int
  out : Option String
  err_size : Int
  err : Option String
  return_code : Int
  pipe_command : Option String
  hsignal : Option String
  color : ExecColor
  prev_cmd : Option Nat
  next_cmd : Option Nat
deriving DecidableEq, Repr

/-- Observable side effects of the completion/display code, in the order
the C code performs them. -/
inductive ExecEffect where
  /-- `weechat_command (buffer, text)` -/
  | command (text : String)
  /-- `weechat_printf_tags (buffer, tags, fmt, ...)` -/
  | printTags (tags : String) (text : String)
  /-- `weechat_hook_hsignal_send (name, hashtable)`; the hashtable is the
  association list of the string keys set by `exec_end_command`. -/
  | hsignalSend (signal : String) (table : List (String × Option String))
  /-- `weechat_hook_timer (delay_ms, 0, 1, exec_timer_delete_cb, cmd)` -/
  | timer (delayMs : Int)
deriving DecidableEq, Repr

/-- Error sentinel of the process primitive.  Modelled from the spec:
`WEECHAT_HOOK_PROCESS_ERROR` is defined in the plugin API header
`weechat-plugin.h`, which is not under `src/`; it is a reserved negative
value (-2), distinct from the "still running" callback value (-1). -/
def WEECHAT_HOOK_PROCESS_ERROR : Int := -2

/-- `exec_concat_output`: grow a stdout/stderr buffer by a chunk.
`realloc` + `memcpy (length + 1)` is string append (the terminating null
is implicit); the silent-drop path on `realloc` failure is not
modelled.  Returns the new `(size, buffer)`. -/
def exec_concat_output (size : Int) (output : Option String) (text : String) :
    Int × String :=
  (size + (text.length : Int), output.getD "" ++ text)

/-- `exec_decode_color`: decode colors in a captured string.  `modif` is
the external `weechat_hook_modifier_exec` collaborator (modifier name,
modifier data, string), which may fail (`none`). -/
def exec_decode_color (modif : String → String → String → Option String)
    (cmd : ExecCmd) (s : Option String) : Option String :=
  match s with
  | none => none
  | some str =>
    if cmd.color = ExecColor.ansi then
      some str
    else
      modif
        (if cmd.output_to_buffer || cmd.pipe_command.isSome then
          "irc_color_decode_ansi"
        else
          "color_decode_ansi")
        (if cmd.color = ExecColor.decode then "1" else "0")
        str

/-- `strchr (ptr_line, 0x0a)` followed by `pos + 1`: the tail of the
character list after the first line feed, `none` when there is none. -/
def exec_next_line : List Char → Option (List Char)
  | [] => none
  | c :: rest => if c = '\n' then some rest else exec_next_line rest

/-- Message printed for a clean exit (`"%s: end of command %d (\"%s\"),
return code: %d"` with `EXEC_PLUGIN_NAME` = "exec"). -/
def exec_end_msg (cmd : ExecCmd) (return_code : Int) : String :=
  "exec: end of command " ++ toString cmd.number ++ " (\"" ++
    cmd.command.getD "" ++ "\"), return code: " ++ toString return_code

/-- Message printed for an unexpected end (`"%s: unexpected end of
command %d (\"%s\")"`). -/
def exec_unexpected_msg (cmd : ExecCmd) : String :=
  "exec: unexpected end of command " ++ toString cmd.number ++ " (\"" ++
    cmd.command.getD "" ++ "\")"

/-- One loop iteration's emission in `exec_display_output`, after color
decoding: the pipe / buffer / tagged-display branches. -/
def exec_emit_line (cmd : ExecCmd) (out : Bool) (line_nb : Nat) (line : String) :
    List ExecEffect :=
  match cmd.pipe_command with
  | some pipe =>
    if (pipe.splitOn "$line").length != 1 then
      [ExecEffect.command (String.intercalate line (pipe.splitOn "$line"))]
    else
      [ExecEffect.command (pipe ++ " " ++ line)]
  | none =>
    if cmd.output_to_buffer then
      if cmd.line_numbers then
        [ExecEffect.command (toString line_nb ++ ". " ++ line)]
      else
        [ExecEffect.command (if line ≠ "" then line else " ")]
    else
      [ExecEffect.printTags
        ("exec_" ++ (if out then "stdout" else "stderr") ++ ",exec_cmd_" ++
          (match cmd.name with
           | some nm => nm
           | none => toString cmd.number))
        ((if cmd.line_numbers then toString line_nb ++ "\t" else " \t") ++ line)]

/-- The `while (ptr_line)` loop of `exec_display_output`: split on line
feeds, drop the final empty fragment, decode colors per line (a decode
failure stops the loop, like the C `break`), emit each line.  The fuel
argument is an embedding artifact; each iteration advances past a line
feed, so any fuel above the character count is enough. -/
def exec_display_loop (modif : String → String → String → Option String)
    (cmd : ExecCmd) (out : Bool) : Nat → List Char → Nat → List ExecEffect
  | 0, _, _ => []
  | _ + 1, [], _ => []
  | fuel + 1, c :: cs, line_nb =>
    let line := String.mk ((c :: cs).takeWhile (fun ch => ch ≠ '\n'))
    match exec_decode_color modif cmd (some line) with
    | none => []
    | some line2 =>
      let em := exec_emit_line cmd out line_nb line2
      match exec_next_line (c :: cs) with
      | none => em
      | some rest => em ++ exec_display_loop modif cmd out fuel rest (line_nb + 1)

/-- `exec_display_output`: display the captured stdout (`out = true`) or
stderr of a job.  `bufferFound` is whether `weechat_buffer_search`
resolved the job's target buffer (the pointer the C code receives). -/
def exec_display_output (modif : String → String → String → Option String)
    (cmd : ExecCmd) (bufferFound : Bool) (out : Bool) : List ExecEffect :=
  match (if out then cmd.out else cmd.err : Option String) with
  | none => []
  | some text =>
    if cmd.output_to_buffer && cmd.pipe_command.isNone && !bufferFound then
      []
    else
      exec_display_loop modif cmd out (text.length + 1) text.data 1

/-- `exec_end_command`: finalize a job.  `searchBuffer` is
`weechat_buffer_search ("==", ·)`; `purgeDelay` is the configured
`exec_config_command_purge_delay`; `endTime` is `time (NULL)`.  Returns
the mutated job record and the emitted side effects in order. -/
def exec_end_command (modif : String → String → String → Option String)
    (searchBuffer : Option String → Bool) (purgeDelay : Int) (endTime : Int)
    (cmd : ExecCmd) (return_code : Int) : ExecCmd × List ExecEffect :=
  let mainEffects : List ExecEffect :=
    match cmd.hsignal with
    | some sig =>
      [ExecEffect.hsignalSend sig
        [("command", cmd.command),
         ("number", some (toString cmd.number)),
         ("name", cmd.name),
         ("out", exec_decode_color modif cmd cmd.out),
         ("err", exec_decode_color modif cmd cmd.err)]]
    | none =>
      let bufferFound := searchBuffer cmd.buffer_full_name
      exec_display_output modif cmd bufferFound true ++
      exec_display_output modif cmd bufferFound false ++
      (if cmd.display_rc && !cmd.detached && !cmd.output_to_buffer &&
          cmd.pipe_command.isNone then
        (if 0 ≤ return_code then
          [ExecEffect.printTags "exec_rc" (exec_end_msg cmd return_code)]
        else
          [ExecEffect.printTags "exec_rc" (exec_unexpected_msg cmd)])
      else
        [])
  let timerEffects : List ExecEffect :=
    if 0 ≤ purgeDelay then [ExecEffect.timer (1 + 1000 * purgeDelay)] else []
  ({ cmd with hook := none, pid := 0, end_time := endTime, return_code := return_code },
   mainEffects ++ timerEffects)

/-- `exec_process_cb`: callback of the process primitive, invoked with
partial output chunks and, terminally, with a return code or the error
sentinel. -/
def exec_process_cb (modif : String → String → String → Option String)
    (searchBuffer : Option String → Bool) (purgeDelay : Int) (endTime : Int)
    (cmd : ExecCmd) (return_code : Int) (out err : Option String) :
    ExecCmd × List ExecEffect :=
  if return_code = WEECHAT_HOOK_PROCESS_ERROR then
    exec_end_command modif searchBuffer purgeDelay endTime cmd (-1)
  else
    let cmd1 :=
      match out with
      | some chunk =>
        let r := exec_concat_output cmd.out_size cmd.out chunk
        { cmd with out_size := r.1, out := some r.2 }
      | none => cmd
    let cmd2 :=
      match err with
      | some chunk =>
        let r := exec_concat_output cmd1.err_size cmd1.err chunk
        { cmd1 with err_size := r.1, err := some r.2 }
      | none => cmd1
    if 0 ≤ return_code then
      exec_end_command modif searchBuffer purgeDelay endTime cmd2 return_code
    else
      (cmd2, [])

/-- The global registry of executed commands: the heap of job records
plus the globals `exec_cmds` (head), `last_exec_cmd` (tail) and
`exec_cmds_count`.  `next_addr` is the fresh-address counter of the
modelled allocator. -/
structure ExecState where
  heap : Nat → Option ExecCmd
  exec_cmds : Option Nat
  last_exec_cmd : Option Nat
  exec_cmds_count : Nat
  next_addr : Nat

/-- The empty registry (plugin start). -/
def execEmptyState : ExecState :=
  { heap := fun _ => none, exec_cmds := none, last_exec_cmd := none,
    exec_cmds_count := 0, next_addr := 0 }

/-- Generic pointer walk with fuel: follow the `f` link (`next_cmd` or
`prev_cmd`) from a starting address, collecting visited addresses.  The
C loops carry no fuel; `exec_cmds_count` bounds every well-formed
walk. -/
def exec_walk (s : ExecState) (f : ExecCmd → Option Nat) :
    Nat → Option Nat → List Nat
  | 0, _ => []
  | _ + 1, none => []
  | fuel + 1, some a => a :: exec_walk s f fuel ((s.heap a).bind f)

/-- Forward traversal `for (p = exec_cmds; p; p = p->next_cmd)`. -/
def exec_forward (s : ExecState) : List Nat :=
  exec_walk s (fun c => c.next_cmd) s.exec_cmds_count s.exec_cmds

/-- Backward traversal from `last_exec_cmd` via `prev_cmd`. -/
def exec_backward (s : ExecState) : List Nat :=
  exec_walk s (fun c => c.prev_cmd) s.exec_cmds_count s.last_exec_cmd

/-- The id numbers of the live jobs, in creation order. -/
def exec_live_numbers (s : ExecState) : List Int :=
  (exec_forward s).filterMap (fun a => (s.heap a).map (fun c => c.number))

/-- The `for` loop in `exec_add` that searches the first id gap: walking
the list in order, the first node whose number exceeds its
predecessor's number by more than one yields `predecessor.number + 1`
(the C `break`); otherwise the initial value stands. -/
def exec_find_gap (s : ExecState) : List Nat → Int → Int
  | [], number => number
  | a :: rest, number =>
    match s.heap a with
    | none => exec_find_gap s rest number
    | some c =>
      match c.prev_cmd with
      | none => exec_find_gap s rest number
      | some p =>
        match s.heap p with
        | none => exec_find_gap s rest number
        | some pc =>
          if pc.number + 1 < c.number then pc.number + 1
          else exec_find_gap s rest number

/-- The id computed by `exec_add` ("find first available number"):
`last_exec_cmd->number + 1` (0 when empty), overridden by the first gap
found by `exec_find_gap`. -/
def exec_add_number (s : ExecState) : Int :=
  let init : Int :=
    match s.last_exec_cmd with
    | some t =>
      match s.heap t with
      | some c => c.number + 1
      | none => 0
    | none => 0
  exec_find_gap s (exec_forward s) init

/-- The record `exec_add` initializes (exec.c lines 144-162).  The
source does not assign `color` in `exec_add` (the launch path in
exec-command.c, outside `src/`, sets it); the model defaults it to
`ansi`.  `start_time = time (NULL)` is the caller-supplied `now`. -/
def exec_new_cmd (number : Int) (prev : Option Nat) (now : Int) : ExecCmd :=
  { number := number, name := none, hook := none, command := none, pid := 0,
    detached := false, start_time := now, end_time := 0,
    output_to_buffer := false, buffer_full_name := none,
    line_numbers := false, display_rc := false,
    out_size := 0, out := none, err_size := 0, err := none,
    return_code := -1, pipe_command := none, hsignal := none,
    color := ExecColor.ansi, prev_cmd := prev, next_cmd := none }

/-- `exec_add`: allocate an id, link a fresh record at the tail, bump
the live count.  Returns the new state and the new record's address. -/
def exec_add (s : ExecState) (now : Int) : ExecState × Nat :=
  let number := exec_add_number s
  let n := s.next_addr
  let newCmd := exec_new_cmd number s.last_exec_cmd now
  let heap1 : Nat → Option ExecCmd :=
    match s.exec_cmds with
    | none => s.heap
    | some _ =>
      match s.last_exec_cmd with
      | none => s.heap
      | some t => fun x =>
          if x = t then
            (s.heap t).map (fun c => { c with next_cmd := some n })
          else s.heap x
  ({ heap := fun x => if x = n then some newCmd else heap1 x,
     exec_cmds := match s.exec_cmds with | none => some n | some h => some h,
     last_exec_cmd := some n,
     exec_cmds_count := s.exec_cmds_count + 1,
     next_addr := s.next_addr + 1 }, n)

/-- Body of `exec_free` once the argument is known non-null: unlink the
node (fixing the neighbors' pointers and the head/tail globals), then
release it and decrement the count. -/
def exec_free_aux (s : ExecState) (a : Nat) (c : ExecCmd) : ExecState :=
  let heap1 : Nat → Option ExecCmd :=
    match c.prev_cmd with
    | none => s.heap
    | some p => fun x =>
        if x = p then
          (s.heap p).map (fun d => { d with next_cmd := c.next_cmd })
        else s.heap x
  let heap2 : Nat → Option ExecCmd :=
    match c.next_cmd with
    | none => heap1
    | some nx => fun x =>
        if x = nx then
          (heap1 nx).map (fun d => { d with prev_cmd := c.prev_cmd })
        else heap1 x
  { heap := fun x => if x = a then none else heap2 x,
    exec_cmds := if s.exec_cmds = some a then c.next_cmd else s.exec_cmds,
    last_exec_cmd :=
      if s.last_exec_cmd = some a then c.prev_cmd else s.last_exec_cmd,
    exec_cmds_count := s.exec_cmds_count - 1,
    next_addr := s.next_addr }

/-- `exec_free`: delete a command.  A `NULL` (absent) argument is a
no-op; dangling pointers are outside the model. -/
def exec_free (s : ExecState) (a : Nat) : ExecState :=
  match s.heap a with
  | none => s
  | some c => exec_free_aux s a c

/-- Modelled from the spec: `name` is the user-assigned alias, set on
the job by the launch command surface (exec-command.c, not under
`src/`).  Only the `name` field changes. -/
def exec_set_name (s : ExecState) (a : Nat) (nm : String) : ExecState :=
  { s with heap := fun x =>
      if x = a then (s.heap a).map (fun c => { c with name := some nm })
      else s.heap x }

/-- C `isspace` for the default locale (the characters `strtol` skips). -/
def exec_is_space (c : Char) : Bool :=
  c = ' ' || c = '\t' || c = '\n' || c = '\x0b' || c = '\x0c' || c = '\x0d'

/-- Numeric value of a digit run. -/
def exec_digits_val : List Char → Int → Int
  | [], acc => acc
  | d :: rest, acc => exec_digits_val rest (acc * 10 + ((d.toNat : Int) - 48))

/-- `strtol (id, &error, 10)`: returns the parsed value and the suffix
`error` points at.  With no digits, no conversion is performed and
`error` is the original string (so the empty string yields value 0 with
`error[0] == 0`).  Overflow clamping is not modelled. -/
def exec_strtol (cs : List Char) : Int × List Char :=
  let ws := cs.dropWhile exec_is_space
  let signed : Int × List Char :=
    match ws with
    | '+' :: r => (1, r)
    | '-' :: r => (-1, r)
    | _ => (1, ws)
  let digits := signed.2.takeWhile (fun c => c.isDigit)
  if digits.isEmpty then (0, cs)
  else (signed.1 * exec_digits_val digits 0, signed.2.drop digits.length)

/-- The number `exec_search_by_id` matches against: the `strtol` result
when it consumed the whole argument (`!error[0]`), otherwise -1. -/
def exec_parse_id (id : String) : Int :=
  let r := exec_strtol id.data
  if r.2.isEmpty then r.1 else -1

/-- The per-node test of the `exec_search_by_id` loop: id match first
(only for a non-negative parsed number), then exact name match. -/
def exec_node_matches (s : ExecState) (id : String) (a : Nat) : Bool :=
  match s.heap a with
  | some c =>
    (decide (0 ≤ exec_parse_id id) && (c.number == exec_parse_id id)) ||
    (c.name == some id)
  | none => false

/-- The search loop of `exec_search_by_id`, walking `next_cmd` pointers
from the head with fuel (see `exec_walk`). -/
def exec_search_loop (s : ExecState) (number : Int) (id : String) :
    Nat → Option Nat → Option Nat
  | 0, _ => none
  | _ + 1, none => none
  | fuel + 1, some a =>
    match s.heap a with
    | none => none
    | some c =>
      if 0 ≤ number ∧ c.number = number then some a
      else if c.name = some id then some a
      else exec_search_loop s number id fuel c.next_cmd

/-- `exec_search_by_id`: look a job up by numeric id or name; first
structural match walking head-to-tail wins. -/
def exec_search_by_id (s : ExecState) (id : String) : Option Nat :=
  exec_search_loop s (exec_parse_id id) id s.exec_cmds_count s.exec_cmds

/-- Registry operations for claim C9: job creation (`exec_add`, with
its `time (NULL)` argument) and removal (`exec_free` on an address). -/
inductive ExecOp where
  | add (now : Int)
  | free (a : Nat)
deriving DecidableEq, Repr

/-- One step of the registry under an operation. -/
def execStep (s : ExecState) : ExecOp → ExecState
  | ExecOp.add now => (exec_add s now).1
  | ExecOp.free a => exec_free s a

/-- Run a sequence of registry operations from the empty registry. -/
def execRun (ops : List ExecOp) : ExecState :=
  ops.foldl execStep execEmptyState

/-- Head of an address list, falling back to a continuation value: the
link the last element of a preceding segment must carry. -/
def execHeadOr (l : List Nat) (aft : Option Nat) : Option Nat :=
  match l with
  | [] => aft
  | b :: _ => some b

/-- `ExecChain f s l aft`: walking `l`, every address holds a record
whose `f`-link points at the next address of `l`, the last one pointing
at `aft`. -/
def ExecChain (f : ExecCmd → Option Nat) (s : ExecState) :
    List Nat → Option Nat → Prop
  | [], _ => True
  | a :: rest, aft =>
    (∃ c, s.heap a = some c ∧ f c = execHeadOr rest aft) ∧ ExecChain f s rest aft

/-- The registry state `s` represents the address list `l` (creation
order): head/tail/count agree, addresses are distinct and below the
allocator counter, nothing lives outside `l`, and the `next_cmd` /
`prev_cmd` links chain `l` forward and backward. -/
structure ExecRepresents (s : ExecState) (l : List Nat) : Prop where
  head_eq : s.exec_cmds = l.head?
  tail_eq : s.last_exec_cmd = l.reverse.head?
  count_eq : s.exec_cmds_count = l.length
  nodup : l.Nodup
  bound : ∀ a ∈ l, a < s.next_addr
  outside : ∀ a, a ∉ l → s.heap a = none
  next_ok : ExecChain (fun c => c.next_cmd) s l none
  prev_ok : ExecChain (fun c => c.prev_cmd) s l.reverse none

theorem execHeadOr_append (xs ys : List Nat) (aft : Option Nat) :
    execHeadOr (xs ++ ys) aft = execHeadOr xs (execHeadOr ys aft) := by
  cases xs <;> rfl

theorem execChain_append {f : ExecCmd → Option Nat} {s : ExecState}
    (xs ys : List Nat) (aft : Option Nat) :
    ExecChain f s (xs ++ ys) aft ↔
      ExecChain f s xs (execHeadOr ys aft) ∧ ExecChain f s ys aft := by
  induction xs with
  | nil => simp [ExecChain]
  | cons x xs ih =>
    simp only [List.cons_append, ExecChain, List.append_eq, execHeadOr_append,
      ih, and_assoc]

theorem execChain_congr {f : ExecCmd → Option Nat} {s s' : ExecState}
    {l : List Nat} {aft : Option Nat}
    (hcongr : ∀ a ∈ l, ∀ c, s.heap a = some c →
      ∃ c', s'.heap a = some c' ∧ f c' = f c) :
    ExecChain f s l aft → ExecChain f s' l aft := by
  induction l with
  | nil => intro h; exact h
  | cons a rest ih =>
    rintro ⟨⟨c, hc, hlink⟩, hrest⟩
    obtain ⟨c', hc', hfc⟩ := hcongr a (List.mem_cons_self a rest) c hc
    exact ⟨⟨c', hc', hfc.trans hlink⟩,
      ih (fun b hb => hcongr b (List.mem_cons_of_mem a hb)) hrest⟩

theorem exec_walk_chain {f : ExecCmd → Option Nat} {s : ExecState} :
    ∀ l : List Nat, ExecChain f s l none →
      exec_walk s f l.length l.head? = l := by
  intro l
  induction l with
  | nil => intro _; rfl
  | cons a rest ih =>
    rintro ⟨⟨c, hc, hlink⟩, hrest⟩
    show exec_walk s f (rest.length + 1) (some a) = a :: rest
    have hbind : (s.heap a).bind (fun c => f c) = rest.head? := by
      rw [hc]
      show f c = rest.head?
      rw [hlink]; cases rest <;> rfl
    rw [exec_walk, hbind, ih hrest]

theorem exec_forward_eq {s : ExecState} {l : List Nat}
    (h : ExecRepresents s l) : exec_forward s = l := by
  unfold exec_forward
  rw [h.count_eq, h.head_eq]
  exact exec_walk_chain l h.next_ok

theorem exec_backward_eq {s : ExecState} {l : List Nat}
    (h : ExecRepresents s l) : exec_backward s = l.reverse := by
  unfold exec_backward
  rw [h.count_eq, h.tail_eq, ← List.length_reverse l]
  exact exec_walk_chain l.reverse h.prev_ok

theorem execRepresents_empty : ExecRepresents execEmptyState [] := by
  refine ⟨rfl, rfl, rfl, List.nodup_nil, ?_, ?_, trivial, trivial⟩
  · intro a ha; cases ha
  · intro a _; rfl

theorem execRepresents_add {s : ExecState} {l : List Nat} (now : Int)
    (h : ExecRepresents s l) :
    ExecRepresents (exec_add s now).1 (l ++ [s.next_addr]) := by
  have hne_n : ∀ a ∈ l, a ≠ s.next_addr := fun a ha => Nat.ne_of_lt (h.bound a ha)
  rcases List.eq_nil_or_concat' l with rfl | ⟨l₀, t, rfl⟩
  · -- empty registry: the new node becomes both head and tail
    have hhead : s.exec_cmds = none := h.head_eq
    refine ⟨?_, ?_, ?_, ?_, ?_, ?_, ?_, ?_⟩
    · simp [exec_add, hhead]
    · simp [exec_add, hhead]
    · simp [exec_add, h.count_eq]
    · simp
    · intro a ha
      simp only [List.nil_append, List.mem_singleton] at ha
      simp [exec_add, ha]
    · intro a ha
      simp only [List.nil_append, List.mem_singleton] at ha
      simp only [exec_add, hhead]
      simp only [if_neg ha]
      exact h.outside a (by simp)
    · refine ⟨⟨exec_new_cmd (exec_add_number s) s.last_exec_cmd now, ?_, rfl⟩, trivial⟩
      simp [exec_add, hhead]
    · refine ⟨⟨exec_new_cmd (exec_add_number s) s.last_exec_cmd now, ?_, ?_⟩, trivial⟩
      · simp [exec_add, hhead]
      · exact h.tail_eq
  · -- nonempty registry: the old tail t gets its next pointer set
    obtain ⟨hd, hhd⟩ : ∃ hd, s.exec_cmds = some hd := by
      rw [h.head_eq]; cases l₀ <;> exact ⟨_, rfl⟩
    have htail : s.last_exec_cmd = some t := by rw [h.tail_eq]; simp
    have ht_mem : t ∈ l₀ ++ [t] := by simp
    have hnd := h.nodup
    have ht_notin : t ∉ l₀ := by
      rw [List.nodup_append] at hnd
      intro hmem
      exact hnd.2.2 hmem (by simp)
    obtain ⟨⟨c, hct, hcnext⟩, -⟩ :
        (∃ c, s.heap t = some c ∧ c.next_cmd = execHeadOr [] none) ∧
          ExecChain (fun c => c.next_cmd) s [] none := by
      have := h.next_ok
      rw [execChain_append] at this
      exact this.2
    have hheap_t : (exec_add s now).1.heap t =
        some { c with next_cmd := some s.next_addr } := by
      simp only [exec_add, hhd, htail]
      simp [if_neg (hne_n t ht_mem), hct]
    have hheap_n : (exec_add s now).1.heap s.next_addr =
        some (exec_new_cmd (exec_add_number s) s.last_exec_cmd now) := by
      simp [exec_add, hhd, htail]
    have hheap_old : ∀ a, a ≠ s.next_addr → a ≠ t →
        (exec_add s now).1.heap a = s.heap a := by
      intro a han hat
      simp only [exec_add, hhd, htail]
      simp only [if_neg han, if_neg hat]
    refine ⟨?_, ?_, ?_, ?_, ?_, ?_, ?_, ?_⟩
    · show (exec_add s now).1.exec_cmds = ((l₀ ++ [t]) ++ [s.next_addr]).head?
      have h1 : (exec_add s now).1.exec_cmds = s.exec_cmds := by
        simp [exec_add, hhd]
      have h2 : ((l₀ ++ [t]) ++ [s.next_addr]).head? = (l₀ ++ [t]).head? :=
        List.head?_append_of_ne_nil _ (by simp)
      rw [h1, h2, h.head_eq]
    · show (exec_add s now).1.last_exec_cmd = _
      simp [exec_add, hhd, htail]
    · show (exec_add s now).1.exec_cmds_count = _
      simp [exec_add, hhd, htail, h.count_eq]
    · rw [List.nodup_append]
      refine ⟨h.nodup, List.nodup_singleton _, ?_⟩
      intro a ha hb
      simp only [List.mem_singleton] at hb
      exact hne_n a ha hb
    · intro a ha
      simp only [exec_add]
      rcases List.mem_append.1 ha with ha' | ha'
      · exact Nat.lt_succ_of_lt (h.bound a ha')
      · simp only [List.mem_singleton] at ha'
        exact ha' ▸ Nat.lt_succ_self _
    · intro a ha
      have han : a ≠ s.next_addr := fun he => ha (by simp [he])
      have hal : a ∉ l₀ ++ [t] := fun hm => ha (List.mem_append_left _ hm)
      have hat : a ≠ t := fun he => hal (he ▸ ht_mem)
      rw [hheap_old a han hat]
      exact h.outside a hal
    · -- forward chain of (l₀ ++ [t]) ++ [n]
      rw [execChain_append]
      constructor
      · rw [execChain_append]
        constructor
        · -- l₀ still chains to t
          have hchain : ExecChain (fun c => c.next_cmd) s l₀
              (execHeadOr [t] (execHeadOr [s.next_addr] none)) := by
            have := h.next_ok
            rw [execChain_append] at this
            exact this.1
          refine execChain_congr (fun a ha c₀ hc₀ => ?_) hchain
          have hat : a ≠ t := fun he => ht_notin (he ▸ ha)
          have han : a ≠ s.next_addr := hne_n a (List.mem_append_left _ ha)
          exact ⟨c₀, by rw [hheap_old a han hat]; exact hc₀, rfl⟩
        · -- t now points at n
          exact ⟨⟨{ c with next_cmd := some s.next_addr }, hheap_t, rfl⟩, trivial⟩
      · -- the new node ends the chain
        exact ⟨⟨exec_new_cmd (exec_add_number s) s.last_exec_cmd now, hheap_n, rfl⟩,
          trivial⟩
    · -- backward chain of n :: (l₀ ++ [t]).reverse
      have hrev : ((l₀ ++ [t]) ++ [s.next_addr]).reverse =
          s.next_addr :: (l₀ ++ [t]).reverse := by simp
      rw [hrev]
      refine ⟨⟨exec_new_cmd (exec_add_number s) s.last_exec_cmd now, hheap_n, ?_⟩, ?_⟩
      · show s.last_exec_cmd = execHeadOr (l₀ ++ [t]).reverse none
        rw [htail]; simp [execHeadOr]
      · refine execChain_congr (fun a ha c₀ hc₀ => ?_) h.prev_ok
        have ha' : a ∈ l₀ ++ [t] := List.mem_reverse.1 ha
        have han : a ≠ s.next_addr := hne_n a ha'
        by_cases hat : a = t
        · subst hat
          have : c₀ = c := by rw [hct] at hc₀; exact (Option.some.inj hc₀).symm
          subst this
          exact ⟨{ c₀ with next_cmd := some s.next_addr }, hheap_t, rfl⟩
        · exact ⟨c₀, by rw [hheap_old a han hat]; exact hc₀, rfl⟩


theorem execHeadOr_none (l : List Nat) : execHeadOr l none = l.head? := by
  cases l <;> rfl

theorem execHeadOr_eq_some {l : List Nat} {x : Nat}
    (h : execHeadOr l none = some x) : x ∈ l := by
  cases l with
  | nil => cases h
  | cons q qs =>
    have : q = x := by cases h; rfl
    rw [← this]
    exact List.mem_cons_self q qs

theorem execRepresents_free {s : ExecState} {l : List Nat} (a : Nat)
    (h : ExecRepresents s l) :
    ∃ l', ExecRepresents (exec_free s a) l' := by
  cases hheap : s.heap a with
  | none =>
    refine ⟨l, ?_⟩
    have : exec_free s a = s := by unfold exec_free; rw [hheap]
    rw [this]; exact h
  | some c =>
    have hfree : exec_free s a = exec_free_aux s a c := by
      unfold exec_free; rw [hheap]
    have ha_mem : a ∈ l := by
      by_contra hmem
      rw [h.outside a hmem] at hheap
      cases hheap
    obtain ⟨l1, l2, rfl⟩ := List.append_of_mem ha_mem
    -- nodup pieces
    have hnd := h.nodup
    rw [List.nodup_append] at hnd
    obtain ⟨hnd1, hnd2c, hdisj⟩ := hnd
    rw [List.nodup_cons] at hnd2c
    obtain ⟨ha_l2, hnd2⟩ := hnd2c
    have ha_l1 : a ∉ l1 := fun hm => hdisj hm (List.mem_cons_self a l2)
    have disj12 : ∀ x ∈ l1, x ∉ l2 :=
      fun x hx hx2 => hdisj hx (List.mem_cons_of_mem a hx2)
    -- forward chain split around a
    have hnext := h.next_ok
    rw [show l1 ++ a :: l2 = (l1 ++ [a]) ++ l2 by simp, execChain_append,
      execChain_append] at hnext
    obtain ⟨⟨hnext1, ⟨⟨c', hc', hcnext'⟩, -⟩⟩, hnext2⟩ := hnext
    have hcnext : c.next_cmd = execHeadOr l2 none := by
      rw [hheap] at hc'
      cases hc'
      exact hcnext'
    -- backward chain split around a
    have hprev := h.prev_ok
    rw [show (l1 ++ a :: l2).reverse = (l2.reverse ++ [a]) ++ l1.reverse by simp,
      execChain_append, execChain_append] at hprev
    obtain ⟨⟨hprev2, ⟨⟨c'', hc'', hcprev'⟩, -⟩⟩, hprev1⟩ := hprev
    have hcprev : c.prev_cmd = execHeadOr l1.reverse none := by
      rw [hheap] at hc''
      cases hc''
      exact hcprev'
    -- where the neighbors live
    have hmem_p : ∀ p, c.prev_cmd = some p → p ∈ l1 := by
      intro p hp
      have h2 : execHeadOr l1.reverse none = some p := by rw [← hp, hcprev]
      exact List.mem_reverse.1 (execHeadOr_eq_some h2)
    have hmem_nx : ∀ nx, c.next_cmd = some nx → nx ∈ l2 := by
      intro nx hn
      have h2 : execHeadOr l2 none = some nx := by rw [← hn, hcnext]
      exact execHeadOr_eq_some h2
    -- pointwise heap characterization of the freed state
    have hp_heap_a : (exec_free_aux s a c).heap a = none := by
      unfold exec_free_aux
      simp
    have hp_heap : ∀ x, x ≠ a → (∀ p, c.prev_cmd = some p → x ≠ p) →
        (∀ nx, c.next_cmd = some nx → x ≠ nx) →
        (exec_free_aux s a c).heap x = s.heap x := by
      intro x hxa hxp hxn
      unfold exec_free_aux
      cases hn : c.next_cmd with
      | none =>
        cases hp : c.prev_cmd with
        | none => simp [if_neg hxa]
        | some p => simp [if_neg hxa, if_neg (hxp p hp)]
      | some nx =>
        cases hp : c.prev_cmd with
        | none => simp [if_neg hxa, if_neg (hxn nx hn)]
        | some p => simp [if_neg hxa, if_neg (hxn nx hn), if_neg (hxp p hp)]
    have hp_heap_p : ∀ p, c.prev_cmd = some p → p ≠ a →
        (∀ nx, c.next_cmd = some nx → p ≠ nx) →
        (exec_free_aux s a c).heap p =
          (s.heap p).map (fun d => { d with next_cmd := c.next_cmd }) := by
      intro p hp hpa hpn
      unfold exec_free_aux
      cases hn : c.next_cmd with
      | none => rw [hp]; simp [if_neg hpa]
      | some nx => rw [hp]; simp [if_neg hpa, if_neg (hpn nx hn)]
    have hp_heap_nx : ∀ nx, c.next_cmd = some nx → nx ≠ a →
        (∀ p, c.prev_cmd = some p → nx ≠ p) →
        (exec_free_aux s a c).heap nx =
          (s.heap nx).map (fun d => { d with prev_cmd := c.prev_cmd }) := by
      intro nx hn hna hnp
      unfold exec_free_aux
      cases hp : c.prev_cmd with
      | none => rw [hn]; simp [if_neg hna]
      | some p => rw [hn]; simp [if_neg hna, if_neg (hnp p hp)]
    refine ⟨l1 ++ l2, ?_⟩
    rw [hfree]
    have hne_pa : ∀ p, c.prev_cmd = some p → p ≠ a :=
      fun p hp he => ha_l1 (he ▸ hmem_p p hp)
    have hne_nxa : ∀ nx, c.next_cmd = some nx → nx ≠ a :=
      fun nx hn he => ha_l2 (he ▸ hmem_nx nx hn)
    have hne_pnx : ∀ p, c.prev_cmd = some p → ∀ nx, c.next_cmd = some nx →
        p ≠ nx := fun p hp nx hn he => disj12 p (hmem_p p hp) (he ▸ hmem_nx nx hn)
    refine ⟨?_, ?_, ?_, ?_, ?_, ?_, ?_, ?_⟩
    · -- head
      show (if s.exec_cmds = some a then c.next_cmd else s.exec_cmds) =
        (l1 ++ l2).head?
      cases l1 with
      | nil =>
        have hh : s.exec_cmds = some a := by rw [h.head_eq]; rfl
        rw [hh]
        simp [hcnext, execHeadOr_none]
      | cons y l1' =>
        have hh : s.exec_cmds = some y := by rw [h.head_eq]; rfl
        have hya : y ≠ a := fun he => ha_l1 (by
          rw [← he] at *
          exact List.mem_cons_self y l1')
        rw [hh, if_neg (by simpa using hya)]
        rfl
    · -- tail
      show (if s.last_exec_cmd = some a then c.prev_cmd else s.last_exec_cmd) =
        (l1 ++ l2).reverse.head?
      cases hl2 : l2 with
      | nil =>
        have ht : s.last_exec_cmd = some a := by
          rw [h.tail_eq, hl2]; simp
        rw [ht, hcprev, execHeadOr_none]
        simp
      | cons nx l2' =>
        have hnonnil : ((nx :: l2').reverse : List Nat) ≠ [] := by simp
        have hLh : (l1 ++ a :: nx :: l2').reverse.head? =
            (nx :: l2').reverse.head? := by
          rw [show (l1 ++ a :: nx :: l2').reverse =
            (nx :: l2').reverse ++ (a :: l1.reverse) by simp]
          exact List.head?_append_of_ne_nil _ hnonnil
        have hRh : (l1 ++ nx :: l2').reverse.head? =
            (nx :: l2').reverse.head? := by
          rw [show (l1 ++ nx :: l2').reverse =
            (nx :: l2').reverse ++ l1.reverse by simp]
          exact List.head?_append_of_ne_nil _ hnonnil
        have hne : s.last_exec_cmd ≠ some a := by
          rw [h.tail_eq, hl2, hLh]
          intro he
          have hmem' : a ∈ (nx :: l2').reverse :=
            List.mem_of_mem_head? (by rw [Option.mem_def]; exact he)
          have hmem2 : a ∈ l2 := by
            rw [hl2]
            exact List.mem_reverse.1 hmem'
          exact ha_l2 hmem2
        rw [if_neg hne, h.tail_eq, hl2, hLh, hRh]
    · -- count
      show s.exec_cmds_count - 1 = (l1 ++ l2).length
      rw [h.count_eq]
      simp [List.length_append]
    · exact List.nodup_append.2 ⟨hnd1, hnd2, fun x hx hx2 => disj12 x hx hx2⟩
    · intro x hx
      show x < s.next_addr
      rcases List.mem_append.1 hx with hx' | hx'
      · exact h.bound x (List.mem_append_left _ hx')
      · exact h.bound x (List.mem_append_right _ (List.mem_cons_of_mem a hx'))
    · -- outside
      intro x hx
      by_cases hxa : x = a
      · exact hxa ▸ hp_heap_a
      · have hx1 : x ∉ l1 := fun hm => hx (List.mem_append_left _ hm)
        have hx2 : x ∉ l2 := fun hm => hx (List.mem_append_right _ hm)
        rw [hp_heap x hxa (fun p hp he => hx1 (he ▸ hmem_p p hp))
          (fun nx hn he => hx2 (he ▸ hmem_nx nx hn))]
        refine h.outside x ?_
        intro hm
        rcases List.mem_append.1 hm with hm' | hm'
        · exact hx1 hm'
        · rcases List.mem_cons.1 hm' with hm'' | hm''
          · exact hxa hm''
          · exact hx2 hm''
    · -- forward chain of l1 ++ l2
      rw [execChain_append]
      constructor
      · -- l1 chains to the head of l2
        rcases List.eq_nil_or_concat' l1 with rfl | ⟨l1', p, rfl⟩
        · exact trivial
        · have hp : c.prev_cmd = some p := by
            rw [hcprev]
            simp [execHeadOr]
          rw [execChain_append] at hnext1
          rw [execChain_append]
          constructor
          · -- prefix l1' untouched
            refine execChain_congr (fun x hx c₀ hc₀ => ?_) hnext1.1
            have hxp : x ≠ p := by
              intro he
              rw [List.nodup_append] at hnd1
              exact hnd1.2.2 (he ▸ hx) (List.mem_singleton.2 rfl)
            have hxa : x ≠ a :=
              fun he => ha_l1 (he ▸ List.mem_append_left _ hx)
            have hxq : ∀ q, c.prev_cmd = some q → x ≠ q := by
              intro q hq
              rw [hp] at hq
              injection hq with hq'
              rw [← hq']
              exact hxp
            have hxnx : ∀ nx, c.next_cmd = some nx → x ≠ nx :=
              fun nx hn he =>
                disj12 x (List.mem_append_left _ hx) (he ▸ hmem_nx nx hn)
            refine ⟨c₀, ?_, rfl⟩
            rw [hp_heap x hxa hxq hxnx]
            exact hc₀
          · -- p now points past a at the head of l2
            obtain ⟨-, ⟨⟨d, hd, -⟩, -⟩⟩ := hnext1
            refine ⟨⟨{ d with next_cmd := c.next_cmd }, ?_, ?_⟩, trivial⟩
            · rw [hp_heap_p p hp (hne_pa p hp) (fun nx hn => hne_pnx p hp nx hn),
                hd]
              rfl
            · show c.next_cmd = execHeadOr [] (execHeadOr l2 none)
              rw [hcnext]; rfl
      · -- l2 untouched in its next links
        refine execChain_congr (fun x hx c₀ hc₀ => ?_) hnext2
        have hxa : x ≠ a := fun he => ha_l2 (he ▸ hx)
        have hxp : ∀ p, c.prev_cmd = some p → x ≠ p :=
          fun p hp he => disj12 p (hmem_p p hp) (he ▸ hx)
        cases hn : c.next_cmd with
        | none =>
          have hxn : ∀ nx, c.next_cmd = some nx → x ≠ nx := by
            intro nx hnn
            rw [hn] at hnn
            cases hnn
          refine ⟨c₀, ?_, rfl⟩
          rw [hp_heap x hxa hxp hxn]
          exact hc₀
        | some nx =>
          by_cases hxnx : x = nx
          · subst hxnx
            refine ⟨{ c₀ with prev_cmd := c.prev_cmd }, ?_, rfl⟩
            rw [hp_heap_nx x hn hxa (fun p hp => hxp p hp), hc₀]
            rfl
          · have hxn : ∀ nx', c.next_cmd = some nx' → x ≠ nx' := by
              intro nx' hnn
              rw [hn] at hnn
              injection hnn with hnn'
              rw [← hnn']
              exact hxnx
            refine ⟨c₀, ?_, rfl⟩
            rw [hp_heap x hxa hxp hxn]
            exact hc₀
    · -- backward chain of (l1 ++ l2).reverse
      rw [List.reverse_append, execChain_append]
      constructor
      · -- l2.reverse chains down to the tail of l1
        cases hl2 : l2 with
        | nil => exact trivial
        | cons nx l2' =>
          have hn : c.next_cmd = some nx := by rw [hcnext, hl2]; rfl
          rw [hl2, show ((nx :: l2').reverse : List Nat) =
            l2'.reverse ++ [nx] by simp, execChain_append] at hprev2
          rw [show ((nx :: l2').reverse : List Nat) =
            l2'.reverse ++ [nx] by simp, execChain_append]
          constructor
          · -- l2' untouched in its prev links
            refine execChain_congr (fun x hx c₀ hc₀ => ?_) hprev2.1
            have hx2 : x ∈ l2 := by
              rw [hl2]
              exact List.mem_cons_of_mem nx (List.mem_reverse.1 hx)
            have hxa : x ≠ a := fun he => ha_l2 (he ▸ hx2)
            have hxp : ∀ p, c.prev_cmd = some p → x ≠ p :=
              fun p hp he => disj12 p (hmem_p p hp) (he ▸ hx2)
            have hxnx : x ≠ nx := by
              intro he
              rw [hl2, List.nodup_cons] at hnd2
              exact hnd2.1 (he ▸ List.mem_reverse.1 hx)
            have hxn : ∀ nx', c.next_cmd = some nx' → x ≠ nx' := by
              intro nx' hnn
              rw [hn] at hnn
              injection hnn with hnn'
              rw [← hnn']
              exact hxnx
            refine ⟨c₀, ?_, rfl⟩
            rw [hp_heap x hxa hxp hxn]
            exact hc₀
          · -- nx now points back past a at the tail of l1
            obtain ⟨-, ⟨⟨d, hd, -⟩, -⟩⟩ := hprev2
            refine ⟨⟨{ d with prev_cmd := c.prev_cmd }, ?_, ?_⟩, trivial⟩
            · rw [hp_heap_nx nx hn (hne_nxa nx hn)
                (fun p hp => (hne_pnx p hp nx hn).symm), hd]
              rfl
            · show c.prev_cmd = execHeadOr [] (execHeadOr l1.reverse none)
              rw [hcprev]; rfl
      · -- l1.reverse untouched in its prev links
        refine execChain_congr (fun x hx c₀ hc₀ => ?_) hprev1
        have hx1 : x ∈ l1 := List.mem_reverse.1 hx
        have hxa : x ≠ a := fun he => ha_l1 (he ▸ hx1)
        have hxnx : ∀ nx, c.next_cmd = some nx → x ≠ nx :=
          fun nx hn he => disj12 x hx1 (he ▸ hmem_nx nx hn)
        cases hp : c.prev_cmd with
        | none =>
          have hxp : ∀ p, c.prev_cmd = some p → x ≠ p := by
            intro p hpp
            rw [hp] at hpp
            cases hpp
          refine ⟨c₀, ?_, rfl⟩
          rw [hp_heap x hxa hxp hxnx]
          exact hc₀
        | some p =>
          by_cases hxp : x = p
          · subst hxp
            refine ⟨{ c₀ with next_cmd := c.next_cmd }, ?_, rfl⟩
            rw [hp_heap_p x hp hxa (fun nx hn => hxnx nx hn), hc₀]
            rfl
          · have hxp' : ∀ p', c.prev_cmd = some p' → x ≠ p' := by
              intro p' hpp
              rw [hp] at hpp
              injection hpp with hpp'
              rw [← hpp']
              exact hxp
            refine ⟨c₀, ?_, rfl⟩
            rw [hp_heap x hxa hxp' hxnx]
            exact hc₀

theorem execRun_wf (ops : List ExecOp) : ∃ l, ExecRepresents (execRun ops) l := by
  suffices h : ∀ s, (∃ l, ExecRepresents s l) →
      ∃ l, ExecRepresents (ops.foldl execStep s) l by
    exact h execEmptyState ⟨[], execRepresents_empty⟩
  induction ops with
  | nil => intro s hs; exact hs
  | cons op ops ih =>
    intro s hs
    obtain ⟨l, hl⟩ := hs
    apply ih
    cases op with
    | add now => exact ⟨l ++ [s.next_addr], execRepresents_add now hl⟩
    | free a => exact execRepresents_free a hl

theorem execRepresents_set_name {s : ExecState} {l : List Nat} (a : Nat)
    (nm : String) (h : ExecRepresents s l) :
    ExecRepresents (exec_set_name s a nm) l := by
  refine ⟨h.head_eq, h.tail_eq, h.count_eq, h.nodup, h.bound, ?_, ?_, ?_⟩
  · intro x hx
    show (if x = a then (s.heap a).map (fun c => { c with name := some nm })
      else s.heap x) = none
    by_cases hxa : x = a
    · subst hxa
      rw [if_pos rfl, h.outside x hx]
      rfl
    · rw [if_neg hxa]
      exact h.outside x hx
  · refine execChain_congr (fun x hx c₀ hc₀ => ?_) h.next_ok
    by_cases hxa : x = a
    · subst hxa
      refine ⟨{ c₀ with name := some nm }, ?_, rfl⟩
      show (if x = x then (s.heap x).map (fun c => { c with name := some nm })
        else s.heap x) = _
      rw [if_pos rfl, hc₀]
      rfl
    · refine ⟨c₀, ?_, rfl⟩
      show (if x = a then (s.heap a).map (fun c => { c with name := some nm })
        else s.heap x) = _
      rw [if_neg hxa]
      exact hc₀
  · refine execChain_congr (fun x hx c₀ hc₀ => ?_) h.prev_ok
    by_cases hxa : x = a
    · subst hxa
      refine ⟨{ c₀ with name := some nm }, ?_, rfl⟩
      show (if x = x then (s.heap x).map (fun c => { c with name := some nm })
        else s.heap x) = _
      rw [if_pos rfl, hc₀]
      rfl
    · refine ⟨c₀, ?_, rfl⟩
      show (if x = a then (s.heap a).map (fun c => { c with name := some nm })
        else s.heap x) = _
      rw [if_neg hxa]
      exact hc₀

theorem exec_search_loop_eq {s : ExecState} (number : Int) (id : String) :
    ∀ l : List Nat, ExecChain (fun c => c.next_cmd) s l none →
      exec_search_loop s number id l.length l.head? =
        l.find? (fun a =>
          match s.heap a with
          | some c =>
            (decide (0 ≤ number) && (c.number == number)) || (c.name == some id)
          | none => false) := by
  intro l
  induction l with
  | nil => intro _; rfl
  | cons a rest ih =>
    rintro ⟨⟨c, hc, hlink⟩, hrest⟩
    show exec_search_loop s number id (rest.length + 1) (some a) = _
    have hstep : exec_search_loop s number id (rest.length + 1) (some a) =
        (if 0 ≤ number ∧ c.number = number then some a
         else if c.name = some id then some a
         else exec_search_loop s number id rest.length c.next_cmd) := by
      simp only [exec_search_loop, hc]
    have hpred : ∀ b : Nat,
        (fun a =>
          match s.heap a with
          | some c =>
            (decide (0 ≤ number) && (c.number == number)) || (c.name == some id)
          | none => false) b =
        (match s.heap b with
          | some c =>
            (decide (0 ≤ number) && (c.number == number)) || (c.name == some id)
          | none => false) := fun _ => rfl
    rw [hstep]
    by_cases h1 : 0 ≤ number ∧ c.number = number
    · rw [if_pos h1, List.find?_cons_of_pos]
      simp only [hc]
      simp [h1.1, h1.2]
    · rw [if_neg h1]
      by_cases h2 : c.name = some id
      · rw [if_pos h2, List.find?_cons_of_pos]
        simp only [hc]
        simp [h2]
      · rw [if_neg h2, List.find?_cons_of_neg]
        · have hlink' : c.next_cmd = execHeadOr rest none := hlink
          rw [hlink', execHeadOr_none]
          exact ih hrest
        · simp only [hc]
          simp only [Bool.or_eq_true, Bool.and_eq_true, decide_eq_true_eq,
            beq_iff_eq, not_or, not_and]
          exact ⟨fun hge heq => h1 ⟨hge, heq⟩, h2⟩

/-- Identity color modifier (a stub `weechat_hook_modifier_exec` used for
concrete evaluations). -/
def execModifId : String → String → String → Option String := fun _ _ s => some s

/-- A `weechat_buffer_search` that resolves no buffer. -/
def execNoBuffer : Option String → Bool := fun _ => false

/-- A just-created job that has captured the stdout text `"hello\n"`. -/
def execJobHello : ExecCmd :=
  { exec_new_cmd 0 none 0 with out := some "hello\n", out_size := 6 }

/-- A just-created job with line numbering enabled. -/
def execJobNumbered : ExecCmd := { exec_new_cmd 0 none 0 with line_numbers := true }

/-- Registry after: create four jobs (ids 0,1,2,3), free the id-2 job
(address 2), create again (gets id 2, appended at the tail, so the
numbers in creation order are 0,1,3,2). -/
def execStateC5 : ExecState :=
  execRun [ExecOp.add 0, ExecOp.add 0, ExecOp.add 0, ExecOp.add 0,
    ExecOp.free 2, ExecOp.add 0]

/-- Registry after: create jobs A, B, C (ids 0,1,2), then free B
(address 1, id 1). -/
def execStateC7 : ExecState :=
  execRun [ExecOp.add 0, ExecOp.add 0, ExecOp.add 0, ExecOp.free 1]

/-- Registry with two jobs: the first (address 0, id 0) named "1", the
second (address 1) holding id 1. -/
def execStateC6 : ExecState :=
  exec_set_name (exec_add (exec_add execEmptyState 0).1 0).1 0 "1"

/-- Registry with a single job (address 0, id 0). -/
def execStateOne : ExecState := (exec_add execEmptyState 0).1

/-- The effect of appending an optional chunk to an optional buffer, as
`exec_process_cb` does through `exec_concat_output`. -/
def exec_append_chunk (buf chunk : Option String) : Option String :=
  match chunk with
  | none => buf
  | some c => some (buf.getD "" ++ c)

/-- Recognizer of timer-registration effects. -/
def execIsTimer : ExecEffect → Bool
  | ExecEffect.timer _ => true
  | _ => false

theorem exec_decode_color_congr (modif : String → String → String → Option String)
    {cmd cmd' : ExecCmd} (hco : cmd'.color = cmd.color)
    (hob : cmd'.output_to_buffer = cmd.output_to_buffer)
    (hpipe : cmd'.pipe_command = cmd.pipe_command) (s : Option String) :
    exec_decode_color modif cmd' s = exec_decode_color modif cmd s := by
  unfold exec_decode_color
  rw [hco, hob, hpipe]

theorem exec_emit_line_congr {cmd cmd' : ExecCmd} (out : Bool) (n : Nat)
    (line : String) (hob : cmd'.output_to_buffer = cmd.output_to_buffer)
    (hpipe : cmd'.pipe_command = cmd.pipe_command)
    (hln : cmd'.line_numbers = cmd.line_numbers) (hname : cmd'.name = cmd.name)
    (hnum : cmd'.number = cmd.number) :
    exec_emit_line cmd' out n line = exec_emit_line cmd out n line := by
  unfold exec_emit_line
  rw [hob, hpipe, hln, hname, hnum]

theorem exec_display_loop_congr (modif : String → String → String → Option String)
    {cmd cmd' : ExecCmd} (out : Bool) (hco : cmd'.color = cmd.color)
    (hob : cmd'.output_to_buffer = cmd.output_to_buffer)
    (hpipe : cmd'.pipe_command = cmd.pipe_command)
    (hln : cmd'.line_numbers = cmd.line_numbers) (hname : cmd'.name = cmd.name)
    (hnum : cmd'.number = cmd.number) :
    ∀ fuel cs line_nb,
      exec_display_loop modif cmd' out fuel cs line_nb =
        exec_display_loop modif cmd out fuel cs line_nb := by
  intro fuel
  induction fuel with
  | zero => intro cs n; rfl
  | succ fuel ih =>
    intro cs n
    cases cs with
    | nil => rfl
    | cons ch cs' =>
      simp only [exec_display_loop]
      rw [exec_decode_color_congr modif hco hob hpipe]
      cases exec_decode_color modif cmd
          (some (String.mk ((ch :: cs').takeWhile fun c => c ≠ '\n'))) with
      | none => rfl
      | some line2 =>
        dsimp only
        rw [exec_emit_line_congr out n line2 hob hpipe hln hname hnum]
        cases exec_next_line (ch :: cs') with
        | none => rfl
        | some rest =>
          dsimp only
          rw [ih]

theorem exec_display_output_congr (modif : String → String → String → Option String)
    {cmd cmd' : ExecCmd} (bufferFound out : Bool) (hco : cmd'.color = cmd.color)
    (hob : cmd'.output_to_buffer = cmd.output_to_buffer)
    (hpipe : cmd'.pipe_command = cmd.pipe_command)
    (hln : cmd'.line_numbers = cmd.line_numbers) (hname : cmd'.name = cmd.name)
    (hnum : cmd'.number = cmd.number) (hout : cmd'.out = cmd.out)
    (herr : cmd'.err = cmd.err) :
    exec_display_output modif cmd' bufferFound out =
      exec_display_output modif cmd bufferFound out := by
  unfold exec_display_output
  rw [hout, herr, hob, hpipe]
  cases (if out then cmd.out else cmd.err : Option String) with
  | none => rfl
  | some text =>
    dsimp only
    by_cases hguard : (cmd.output_to_buffer && cmd.pipe_command.isNone &&
      !bufferFound) = true
    · rw [if_pos hguard, if_pos hguard]
    · rw [if_neg hguard, if_neg hguard,
        exec_display_loop_congr modif out hco hob hpipe hln hname hnum]

theorem exec_end_msg_congr {cmd cmd' : ExecCmd} (rc : Int)
    (hnum : cmd'.number = cmd.number) (hcomm : cmd'.command = cmd.command) :
    exec_end_msg cmd' rc = exec_end_msg cmd rc := by
  unfold exec_end_msg
  rw [hnum, hcomm]

theorem exec_unexpected_msg_congr {cmd cmd' : ExecCmd}
    (hnum : cmd'.number = cmd.number) (hcomm : cmd'.command = cmd.command) :
    exec_unexpected_msg cmd' = exec_unexpected_msg cmd := by
  unfold exec_unexpected_msg
  rw [hnum, hcomm]

/-- The side effects of `exec_end_command` depend only on the fields the
function reads, not on `hook`, `pid`, `end_time` or `return_code` of the
record (those are only written). -/
theorem exec_end_command_effects_congr
    (modif : String → String → String → Option String)
    (sb : Option String → Bool) (d t t' : Int) {cmd cmd' : ExecCmd} (rc : Int)
    (hsig : cmd'.hsignal = cmd.hsignal) (hcomm : cmd'.command = cmd.command)
    (hnum : cmd'.number = cmd.number) (hname : cmd'.name = cmd.name)
    (hout : cmd'.out = cmd.out) (herr : cmd'.err = cmd.err)
    (hco : cmd'.color = cmd.color)
    (hob : cmd'.output_to_buffer = cmd.output_to_buffer)
    (hpipe : cmd'.pipe_command = cmd.pipe_command)
    (hbuf : cmd'.buffer_full_name = cmd.buffer_full_name)
    (hrc : cmd'.display_rc = cmd.display_rc) (hdet : cmd'.detached = cmd.detached)
    (hln : cmd'.line_numbers = cmd.line_numbers) :
    (exec_end_command modif sb d t' cmd' rc).2 =
      (exec_end_command modif sb d t cmd rc).2 := by
  unfold exec_end_command
  dsimp only
  rw [hsig]
  cases cmd.hsignal with
  | some sig =>
    dsimp only
    rw [hcomm, hnum, hname, hout, herr,
      exec_decode_color_congr modif hco hob hpipe,
      exec_decode_color_congr modif hco hob hpipe]
  | none =>
    dsimp only
    rw [hbuf, hrc, hdet, hob, hpipe,
      exec_display_output_congr modif (sb cmd.buffer_full_name) true hco hob
        hpipe hln hname hnum hout herr,
      exec_display_output_congr modif (sb cmd.buffer_full_name) false hco hob
        hpipe hln hname hnum hout herr,
      exec_end_msg_congr rc hnum hcomm, exec_unexpected_msg_congr hnum hcomm]

/-- On a terminal invocation with a non-negative return code and no
chunks, `exec_process_cb` just runs `exec_end_command`. -/
theorem exec_process_cb_terminal_state
    (modif : String → String → String → Option String)
    (sb : Option String → Bool) (d t : Int) (cmd : ExecCmd) (rc : Int)
    (h : 0 ≤ rc) :
    (exec_process_cb modif sb d t cmd rc none none).1 =
      { cmd with hook := none, pid := 0, end_time := t, return_code := rc } := by
  unfold exec_process_cb
  rw [if_neg (by unfold WEECHAT_HOOK_PROCESS_ERROR; omega)]
  dsimp only
  rw [if_pos h]
  rfl

theorem exec_process_cb_terminal_effects
    (modif : String → String → String → Option String)
    (sb : Option String → Bool) (d t : Int) (cmd : ExecCmd) (rc : Int)
    (h : 0 ≤ rc) :
    (exec_process_cb modif sb d t cmd rc none none).2 =
      (exec_end_command modif sb d t cmd rc).2 := by
  unfold exec_process_cb
  rw [if_neg (by unfold WEECHAT_HOOK_PROCESS_ERROR; omega)]
  dsimp only
  rw [if_pos h]

theorem exec_emit_line_no_timer (cmd : ExecCmd) (out : Bool) (n : Nat)
    (line : String) :
    (exec_emit_line cmd out n line).filter execIsTimer = [] := by
  unfold exec_emit_line
  split
  · split <;> rfl
  · split
    · split <;> rfl
    · rfl

theorem exec_display_loop_no_timer
    (modif : String → String → String → Option String) (cmd : ExecCmd)
    (out : Bool) :
    ∀ fuel cs line_nb,
      (exec_display_loop modif cmd out fuel cs line_nb).filter execIsTimer = [] := by
  intro fuel
  induction fuel with
  | zero => intro cs n; rfl
  | succ fuel ih =>
    intro cs n
    cases cs with
    | nil => rfl
    | cons ch cs' =>
      simp only [exec_display_loop]
      cases exec_decode_color modif cmd
          (some (String.mk ((ch :: cs').takeWhile fun c => c ≠ '\n'))) with
      | none => rfl
      | some line2 =>
        dsimp only
        cases exec_next_line (ch :: cs') with
        | none => exact exec_emit_line_no_timer cmd out n line2
        | some rest =>
          dsimp only
          rw [List.filter_append, exec_emit_line_no_timer, ih]
          rfl

theorem exec_display_output_no_timer
    (modif : String → String → String → Option String) (cmd : ExecCmd)
    (bufferFound out : Bool) :
    (exec_display_output modif cmd bufferFound out).filter execIsTimer = [] := by
  unfold exec_display_output
  cases (if out then cmd.out else cmd.err : Option String) with
  | none => rfl
  | some text =>
    dsimp only
    split
    · rfl
    · exact exec_display_loop_no_timer modif cmd out (text.length + 1) text.data 1

/-- The timer registrations of `exec_end_command`: exactly one, firing
after `1 + 1000 * purgeDelay` milliseconds, when the configured purge
delay is non-negative; none when it is negative ("never"). -/
theorem exec_end_command_timers
    (modif : String → String → String → Option String)
    (sb : Option String → Bool) (d t rc : Int) (cmd : ExecCmd) :
    (exec_end_command modif sb d t cmd rc).2.filter execIsTimer =
      (if 0 ≤ d then [ExecEffect.timer (1 + 1000 * d)] else []) := by
  unfold exec_end_command
  dsimp only
  rw [List.filter_append]
  have hmain : (match cmd.hsignal with
      | some sig =>
        [ExecEffect.hsignalSend sig
          [("command", cmd.command),
           ("number", some (toString cmd.number)),
           ("name", cmd.name),
           ("out", exec_decode_color modif cmd cmd.out),
           ("err", exec_decode_color modif cmd cmd.err)]]
      | none =>
        exec_display_output modif cmd (sb cmd.buffer_full_name) true ++
        exec_display_output modif cmd (sb cmd.buffer_full_name) false ++
        (if cmd.display_rc && !cmd.detached && !cmd.output_to_buffer &&
            cmd.pipe_command.isNone then
          (if 0 ≤ rc then
            [ExecEffect.printTags "exec_rc" (exec_end_msg cmd rc)]
          else
            [ExecEffect.printTags "exec_rc" (exec_unexpected_msg cmd)])
        else
          ([] : List ExecEffect))).filter execIsTimer = [] := by
    cases cmd.hsignal with
    | some sig => rfl
    | none =>
      rw [List.filter_append, List.filter_append,
        exec_display_output_no_timer, exec_display_output_no_timer]
      simp only [List.nil_append]
      split
      · split <;> rfl
      · rfl
  rw [hmain]
  rw [List.nil_append]
  split
  · rfl
  · rfl

theorem execStateOne_represents : ExecRepresents execStateOne [0] := by
  have h1 := execRepresents_add 0 execRepresents_empty
  have hl : (([] : List Nat) ++ [execEmptyState.next_addr]) = [0] := by decide
  rw [hl] at h1
  exact h1

theorem execStateC6_represents : ExecRepresents execStateC6 [0, 1] := by
  have h2 := execRepresents_add 0 (execRepresents_add 0 execRepresents_empty)
  have hl : ((([] : List Nat) ++ [execEmptyState.next_addr]) ++
      [(exec_add execEmptyState 0).1.next_addr]) = [0, 1] := by decide
  rw [hl] at h2
  exact execRepresents_set_name 0 "1" h2

/-- Claim C1, counterexample: the claim demands that a second terminal
invocation of the process callback not emit the job's display output
again and not schedule a second removal timer.  After finalizing the job
`execJobHello` with return code 0, invoking the callback again with
return code 0 emits the display line `" \thello"` a second time and
registers another deletion timer: the code has no idempotence guard. -/
theorem exec_c1_counterexample :
    ExecEffect.printTags "exec_stdout,exec_cmd_0" " \thello" ∈
      (exec_process_cb execModifId execNoBuffer 0 0
        (exec_process_cb execModifId execNoBuffer 0 0 execJobHello 0
          none none).1 0 none none).2 ∧
    ExecEffect.timer 1 ∈
      (exec_process_cb execModifId execNoBuffer 0 0
        (exec_process_cb execModifId execNoBuffer 0 0 execJobHello 0
          none none).1 0 none none).2 := by decide

/-- Claim C1, amended: the Finalizing side effects run on every terminal
invocation; the code does not guard against a repeat.  A second terminal
invocation with the same non-negative return code (and no chunks)
re-executes exactly the same side effects — the display output is
re-emitted and the removal timer is re-scheduled.  At-most-once
execution relies solely on the host's exactly-one-terminal-invocation
contract. -/
theorem exec_c1_amended (modif : String → String → String → Option String)
    (sb : Option String → Bool) (d t₁ t₂ rc : Int) (cmd : ExecCmd)
    (h : 0 ≤ rc) :
    (exec_process_cb modif sb d t₂
      (exec_process_cb modif sb d t₁ cmd rc none none).1 rc none none).2 =
      (exec_process_cb modif sb d t₁ cmd rc none none).2 := by
  rw [exec_process_cb_terminal_state modif sb d t₁ cmd rc h,
    exec_process_cb_terminal_effects modif sb d t₂ _ rc h,
    exec_process_cb_terminal_effects modif sb d t₁ cmd rc h]
  exact exec_end_command_effects_congr modif sb d t₁ t₂ rc
    rfl rfl rfl rfl rfl rfl rfl rfl rfl rfl rfl rfl rfl

/-- Claim C1, witness: the amended theorem at the concrete job
`execJobHello` with return code 0. -/
theorem exec_c1_witness :
    (0 : Int) ≤ 0 ∧
    (exec_process_cb execModifId execNoBuffer 0 0
      (exec_process_cb execModifId execNoBuffer 0 0 execJobHello 0
        none none).1 0 none none).2 =
      (exec_process_cb execModifId execNoBuffer 0 0 execJobHello 0
        none none).2 :=
  ⟨by decide,
   exec_c1_amended execModifId execNoBuffer 0 0 0 0 execJobHello (by decide)⟩

/-- Claim C2, counterexample: the claim demands that chunks delivered
with the error-sentinel invocation be appended to the buffers.  On a
fresh job, the callback invoked with the error sentinel and stdout chunk
"x" / stderr chunk "y" leaves both buffers empty: the code finalizes
before the append and the chunks are discarded. -/
theorem exec_c2_counterexample :
    (exec_process_cb execModifId execNoBuffer 0 0 (exec_new_cmd 0 none 0)
      WEECHAT_HOOK_PROCESS_ERROR (some "x") (some "y")).1.out = none ∧
    (exec_process_cb execModifId execNoBuffer 0 0 (exec_new_cmd 0 none 0)
      WEECHAT_HOOK_PROCESS_ERROR (some "x") (some "y")).1.err = none := by decide

/-- Claim C2, amended: on every invocation except the one carrying the
error sentinel, delivered stdout/stderr chunks are appended to the
job's buffers; on the error-sentinel invocation the buffers are left
unchanged (the delivered chunks are discarded and the job finalizes
immediately). -/
theorem exec_c2_amended (modif : String → String → String → Option String)
    (sb : Option String → Bool) (d t rc : Int) (cmd : ExecCmd)
    (out err : Option String) :
    (rc ≠ WEECHAT_HOOK_PROCESS_ERROR →
      (exec_process_cb modif sb d t cmd rc out err).1.out =
        exec_append_chunk cmd.out out ∧
      (exec_process_cb modif sb d t cmd rc out err).1.err =
        exec_append_chunk cmd.err err) ∧
    (rc = WEECHAT_HOOK_PROCESS_ERROR →
      (exec_process_cb modif sb d t cmd rc out err).1.out = cmd.out ∧
      (exec_process_cb modif sb d t cmd rc out err).1.err = cmd.err) := by
  constructor
  · intro hne
    unfold exec_process_cb
    rw [if_neg hne]
    dsimp only
    constructor
    · cases out <;> cases err <;> (split <;> rfl)
    · cases out <;> cases err <;> (split <;> rfl)
  · intro he
    subst he
    unfold exec_process_cb
    rw [if_pos rfl]
    exact ⟨rfl, rfl⟩

/-- Claim C2, witness: a live-job invocation (return code 5 ≠ error
sentinel) on `execJobHello` appends the chunk "x" to stdout, and the
error-sentinel invocation leaves stdout unchanged. -/
theorem exec_c2_witness :
    ((5 : Int) ≠ WEECHAT_HOOK_PROCESS_ERROR ∧
      (exec_process_cb execModifId execNoBuffer 0 0 execJobHello 5
        (some "x") none).1.out = exec_append_chunk execJobHello.out (some "x")) ∧
    (exec_process_cb execModifId execNoBuffer 0 0 execJobHello
      WEECHAT_HOOK_PROCESS_ERROR (some "x") none).1.out = execJobHello.out :=
  ⟨⟨by decide,
    ((exec_c2_amended execModifId execNoBuffer 0 0 5 execJobHello
      (some "x") none).1 (by decide)).1⟩,
   ((exec_c2_amended execModifId execNoBuffer 0 0 WEECHAT_HOOK_PROCESS_ERROR
      execJobHello (some "x") none).2 rfl).1⟩

/-- Claim C3, counterexample: the claim demands that the stored
"unexpected termination" return code be distinct from the
still-running sentinel.  A fresh job's `return_code` is -1, and after
the error-sentinel invocation the stored code is the very same value:
they are not distinct. -/
theorem exec_c3_counterexample :
    (exec_new_cmd 0 none 0).return_code =
      (exec_process_cb execModifId execNoBuffer 0 0 (exec_new_cmd 0 none 0)
        WEECHAT_HOOK_PROCESS_ERROR none none).1.return_code ∧
    (exec_new_cmd 0 none 0).return_code = -1 := by decide

/-- Claim C3, amended: when the process callback reports the error
sentinel, the job finalizes with stored return code -1, which is
negative — but it is the same value the `return_code` field holds
before completion (`exec_add` initializes it to -1), not a distinct
one. -/
theorem exec_c3_amended (modif : String → String → String → Option String)
    (sb : Option String → Bool) (d t now number : Int) (prev : Option Nat)
    (cmd : ExecCmd) (out err : Option String) :
    (exec_process_cb modif sb d t cmd WEECHAT_HOOK_PROCESS_ERROR
      out err).1.return_code = -1 ∧
    (exec_new_cmd number prev now).return_code = -1 ∧
    (-1 : Int) < 0 := by
  refine ⟨?_, rfl, by norm_num⟩
  unfold exec_process_cb
  rw [if_pos rfl]
  rfl

/-- Claim C4, counterexample: the claim says the removal timer fires
after exactly `max (1, delay * 1000)` ms.  With a configured delay of 1
second, the code requests a timer of 1001 ms, and no timer of
`max (1, 1 * 1000) = 1000` ms is requested. -/
theorem exec_c4_counterexample :
    ExecEffect.timer 1001 ∈
      (exec_end_command execModifId execNoBuffer 1 0 execJobHello 0).2 ∧
    ExecEffect.timer (max 1 (1 * 1000)) ∉
      (exec_end_command execModifId execNoBuffer 1 0 execJobHello 0).2 := by
  decide

/-- Claim C4, amended: for every configured non-negative purge delay d
(seconds), finalizing a job requests exactly one one-shot timer, firing
after `1 + d * 1000` milliseconds; when the configured delay is
negative ("never"), no removal timer is requested. -/
theorem exec_c4_amended (modif : String → String → String → Option String)
    (sb : Option String → Bool) (d t rc : Int) (cmd : ExecCmd) :
    (0 ≤ d →
      (exec_end_command modif sb d t cmd rc).2.filter execIsTimer =
        [ExecEffect.timer (1 + 1000 * d)]) ∧
    (d < 0 →
      (exec_end_command modif sb d t cmd rc).2.filter execIsTimer = []) := by
  constructor
  · intro hd
    rw [exec_end_command_timers, if_pos hd]
  · intro hd
    rw [exec_end_command_timers, if_neg (by omega)]

/-- Claim C4, witness: the amended theorem at purge delay 0 (one timer
of 1 ms) and at purge delay -1 ("never": no timer). -/
theorem exec_c4_witness :
    ((0 : Int) ≤ 0 ∧
      (exec_end_command execModifId execNoBuffer 0 0 execJobHello 0).2.filter
        execIsTimer = [ExecEffect.timer (1 + 1000 * 0)]) ∧
    ((-1 : Int) < 0 ∧
      (exec_end_command execModifId execNoBuffer (-1) 0 execJobHello 0).2.filter
        execIsTimer = []) :=
  ⟨⟨by decide,
    (exec_c4_amended execModifId execNoBuffer 0 0 0 execJobHello).1 (by decide)⟩,
   ⟨by decide,
    (exec_c4_amended execModifId execNoBuffer (-1) 0 0 execJobHello).2
      (by decide)⟩⟩

/-- Claim C5 (code bug): the claim — and the code's own comment "find
first available number" — say the id assigned to a new job is the
smallest non-negative integer not in use among live jobs, hence unique.
After creating four jobs (ids 0,1,2,3), freeing the id-2 job, and
creating again (which correctly reuses 2 but appends the node at the
tail, making the numbers in creation order 0,1,3,2), the gap scan stops
at the pair (1,3) and the next creation is assigned id 2 — an id that a
live job already holds, while the actual smallest unused id is 4. -/
theorem exec_c5_bug_eval :
    exec_live_numbers execStateC5 = [0, 1, 3, 2] ∧
    exec_add_number execStateC5 = 2 ∧
    (2 : Int) ∈ exec_live_numbers execStateC5 ∧
    (4 : Int) ∉ exec_live_numbers execStateC5 ∧
    ((exec_add execStateC5 0).1.heap (exec_add execStateC5 0).2).map
      (fun c => c.number) = some 2 := by decide

/-- Claim C6, counterexample: the claim says a lookup string that parses
as a non-negative integer returns the job whose id equals that integer
even when another job's name is that digit string.  In a registry where
the first job (id 0) is named "1" and the second job has id 1, looking
up "1" returns the first job (the earlier name match), not the job
whose id is 1. -/
theorem exec_c6_counterexample :
    exec_parse_id "1" = 1 ∧
    (execStateC6.heap 0).map (fun c => c.number) = some 0 ∧
    (execStateC6.heap 0).bind (fun c => c.name) = some "1" ∧
    (execStateC6.heap 1).map (fun c => c.number) = some 1 ∧
    exec_search_by_id execStateC6 "1" = some 0 := by decide

/-- Claim C6, amended: `exec_search_by_id` returns the first job in
creation order that matches either test — id equality (when the
argument parses fully as a non-negative integer) or exact name
equality; the id test merely comes first within each node, so an
earlier job's name match beats a later job's id match. -/
theorem exec_c6_amended {s : ExecState} {l : List Nat}
    (h : ExecRepresents s l) (id : String) :
    exec_search_by_id s id = l.find? (exec_node_matches s id) := by
  unfold exec_search_by_id
  rw [h.count_eq, h.head_eq,
    exec_search_loop_eq (exec_parse_id id) id l h.next_ok]
  rfl

/-- Claim C6, witness: the amended theorem on the two-job registry,
looking up "0" (the first job's id matches). -/
theorem exec_c6_witness : exec_search_by_id execStateC6 "0" = some 0 := by
  rw [exec_c6_amended execStateC6_represents "0"]
  decide

/-- Claim C7 (confirmed): creating jobs A, B, C (ids 0, 1, 2), then
removing B (address 1, id 1), then creating D assigns D the id 1
previously held by B — not C.id + 1 = 3. -/
theorem exec_c7_id_reuse :
    exec_live_numbers execStateC7 = [0, 2] ∧
    exec_add_number execStateC7 = 1 ∧
    ((exec_add execStateC7 0).1.heap (exec_add execStateC7 0).2).map
      (fun c => c.number) = some 1 := by decide

/-- Claim C8 (confirmed): with numbering enabled, displaying
`"line1\nline2\n"` emits exactly two lines numbered 1 and 2 (no
trailing empty third line); `"line1\nline2"` (no trailing line feed)
emits the same two lines; embedded empty lines are emitted (`"a\n\nb"`
gives three lines with an empty second line); and the numbering
restarts at 1 on each call (a separate stderr display starts at 1). -/
theorem exec_c8_line_splitting
    (modif : String → String → String → Option String) (bf : Bool) :
    exec_display_output modif
      { execJobNumbered with out := some "line1\nline2\n" } bf true =
      [ExecEffect.printTags "exec_stdout,exec_cmd_0" "1\tline1",
       ExecEffect.printTags "exec_stdout,exec_cmd_0" "2\tline2"] ∧
    exec_display_output modif
      { execJobNumbered with out := some "line1\nline2" } bf true =
      [ExecEffect.printTags "exec_stdout,exec_cmd_0" "1\tline1",
       ExecEffect.printTags "exec_stdout,exec_cmd_0" "2\tline2"] ∧
    exec_display_output modif
      { execJobNumbered with out := some "a\n\nb" } bf true =
      [ExecEffect.printTags "exec_stdout,exec_cmd_0" "1\ta",
       ExecEffect.printTags "exec_stdout,exec_cmd_0" "2\t",
       ExecEffect.printTags "exec_stdout,exec_cmd_0" "3\tb"] ∧
    exec_display_output modif
      { execJobNumbered with err := some "x\n" } bf false =
      [ExecEffect.printTags "exec_stderr,exec_cmd_0" "1\tx"] :=
  ⟨rfl, rfl, rfl, rfl⟩

/-- Claim C9 (confirmed): after any sequence of job creations
(`exec_add`) and removals (`exec_free`) from the empty registry, the
forward traversal from the head equals the reverse of the backward
traversal from the tail; moreover the state represents a well-formed
address list (consistent head/tail pointers and neighbor links). -/
theorem exec_c9_list_consistency (ops : List ExecOp) :
    exec_forward (execRun ops) = (exec_backward (execRun ops)).reverse ∧
    ∃ l, ExecRepresents (execRun ops) l := by
  obtain ⟨l, hl⟩ := execRun_wf ops
  refine ⟨?_, ⟨l, hl⟩⟩
  rw [exec_forward_eq hl, exec_backward_eq hl, List.reverse_reverse]

/-- Claim C10 (confirmed): the empty string passed to
`exec_search_by_id` parses as the number 0 (`strtol` performs no
conversion, leaves `error` at the terminator, and the parse is not
rejected), so the search returns the first live job in creation order
whose id is 0 or whose name is the empty string, rather than always
reporting not-found. -/
theorem exec_c10_empty_string_find {s : ExecState} {l : List Nat}
    (h : ExecRepresents s l) :
    exec_parse_id "" = 0 ∧
    exec_search_by_id s "" = l.find? (fun a =>
      match s.heap a with
      | some c => (c.number == (0 : Int)) || (c.name == some "")
      | none => false) := by
  refine ⟨by decide, ?_⟩
  unfold exec_search_by_id
  rw [h.count_eq, h.head_eq,
    exec_search_loop_eq (exec_parse_id "") "" l h.next_ok]
  have hp : exec_parse_id "" = 0 := by decide
  rw [hp]
  congr 1

/-- Claim C10, witness: on a registry holding a single job with id 0,
`exec_search_by_id` applied to the empty string finds that job. -/
theorem exec_c10_witness : exec_search_by_id execStateOne "" = some 0 := by
  rw [(exec_c10_empty_string_find execStateOne_represents).2]
  decide
